import Mathlib

set_option maxRecDepth 8000

/-!
Verification of the github-pr-review-agent repository.

This file gives a shallow embedding of the parts of the code that the
claims C1..C10 are about:

  * `app/utils/diff_parser.py`  (`DiffParser.parse_unified_diff`)
  * `app/agents/reviewer_agent.py`, `security_agent.py`,
    `performance_agent.py` (the three per-file analyzers)
  * `app/agents/senior_engineer_agent.py` (`SeniorEngineerAgent.refine`)
  * `app/services/gemini_service.py` (the backend outcome shapes)
  * `app/controllers/review_controller.py`
    (`_safe_agent_call`, `_run_all_agents`, `_format_review_comment`)
  * `app/agents/summary_agent.py` (the per-file recount of additions)
  * `app/config/settings.py`, `gemini_client.py`, `github_client.py`
    and the import-time construction order (startup behaviour)

Strings are modelled as `List Char` (Python `str.split('\n')` lines),
Python `int` as `Nat` (all the counters here are non-negative and only
ever incremented), Python exceptions as `Except`, and a JSON dict that
may or may not carry a key as `Option`.
-/

/-! ### Basic character and line helpers -/

/-- Python `\s` on the characters that can occur in a diff line
(ASCII whitespace: space, tab, newline, vertical tab, form feed,
carriage return). -/
def isPySpace (c : Char) : Bool :=
  c == ' ' || c == '\t' || c == '\n' || c == '\x0b' || c == '\x0c' || c == '\r'

/-- Python `str.startswith`, on char lists: first argument is the
pattern, second the string. -/
def startsWithL : List Char → List Char → Bool
  | [], _ => true
  | _ :: _, [] => false
  | p :: ps, c :: cs => p == c && startsWithL ps cs

/-- Python `diff_text.split('\n')`: splits on every newline and keeps
empty segments, so the result is always non-empty. -/
def splitNl : List Char → List (List Char)
  | [] => [[]]
  | c :: cs =>
    if c == '\n' then [] :: splitNl cs
    else
      match splitNl cs with
      | [] => [[c]]
      | x :: xs => (c :: x) :: xs

/-! ### The two regular expressions of `diff_parser.py`

`re.search(r'a/(.+?)\s+b/(.+?)$', line)` (line 34) and
`re.search(r'@@ -(\d+)(?:,(\d+))? \+(\d+)(?:,(\d+))? @@', line)`
(line 56), embedded as deterministic matchers.  Both patterns only
need bounded backtracking: a greedy `\d+` is followed by a non-digit
literal, a greedy `\s+` is followed by the non-space literal `b`, so
in each case only the maximal run can complete the match, and the lazy
`(.+?)` groups are expanded shortest-first exactly as `re` does. -/

/-- Maximal run of decimal digits at the head of the list. -/
def takeDigits : List Char → (List Char × List Char)
  | [] => ([], [])
  | c :: cs =>
    if c.isDigit then
      let r := takeDigits cs
      (c :: r.1, r.2)
    else ([], c :: cs)

/-- Python `int` on a non-empty digit string. -/
def digitsVal (ds : List Char) : Nat :=
  ds.foldl (fun a c => a * 10 + (c.toNat - 48)) 0

/-- Match `\d+` at the head: value of the maximal digit run and the
rest, or `none` when no digit is present. -/
def numTake (cs : List Char) : Option (Nat × List Char) :=
  match takeDigits cs with
  | ([], _) => none
  | (ds, r) => some (digitsVal ds, r)

/-- After the `\s+` of the filename pattern: skip the rest of the
whitespace run, then require `b/` followed by at least one character
(the lazy `(.+?)$` group, forced to the end of the line). -/
def fnAfterWs : List Char → Option (List Char)
  | [] => none
  | c :: cs =>
    if isPySpace c then fnAfterWs cs
    else
      match c, cs with
      | 'b', '/' :: g2 => if g2.isEmpty then none else some g2
      | _, _ => none

/-- Match `\s+b/(.+?)$`: at least one whitespace character, then the
tail handled by `fnAfterWs`. -/
def fnWsB : List Char → Option (List Char)
  | [] => none
  | c :: cs => if isPySpace c then fnAfterWs cs else none

/-- The lazy group `(.+?)` before the whitespace: consume one more
character, try the tail, and grow the group on failure (shortest
match first, as `re` does for a lazy quantifier). -/
def fnG1 : List Char → Option (List Char)
  | [] => none
  | _ :: cs =>
    match fnWsB cs with
    | some g2 => some g2
    | none => fnG1 cs

/-- Try the filename pattern at one position: the literal `a/` then
the groups. -/
def fnTry : List Char → Option (List Char)
  | '/' :: rest => fnG1 rest
  | _ => none

/-- `re.search(r'a/(.+?)\s+b/(.+?)$', line)`, returning `group(2)`
(the post-change filename) of the leftmost match. -/
def fnSearch : List Char → Option (List Char)
  | [] => none
  | c :: cs =>
    match (if c == 'a' then fnTry cs else none) with
    | some g2 => some g2
    | none => fnSearch cs

/-- The optional `(?:,(\d+))?` group of the hunk header pattern.  When
a comma follows, the digits are required (with a comma and no digits,
neither keeping nor dropping the optional group lets the following
literal space match, so the position fails). -/
def hkOpt (cs : List Char) : Option (Option Nat × List Char) :=
  match cs with
  | ',' :: rest =>
    match numTake rest with
    | some (v, r) => some (some v, r)
    | none => none
  | _ => some (none, cs)

/-- Try `@@ -(\d+)(?:,(\d+))? \+(\d+)(?:,(\d+))? @@` at one position. -/
def hkTryAt (cs : List Char) : Option (Nat × Option Nat × Nat × Option Nat) :=
  match cs with
  | '@' :: '@' :: ' ' :: '-' :: r1 =>
    match numTake r1 with
    | none => none
    | some (d1, r2) =>
      match hkOpt r2 with
      | none => none
      | some (d2, r3) =>
        match r3 with
        | ' ' :: '+' :: r4 =>
          match numTake r4 with
          | none => none
          | some (d3, r5) =>
            match hkOpt r5 with
            | none => none
            | some (d4, r6) =>
              match r6 with
              | ' ' :: '@' :: '@' :: _ => some (d1, d2, d3, d4)
              | _ => none
        | _ => none
  | _ => none

/-- `re.search` for the hunk header pattern: leftmost position where
`hkTryAt` succeeds. -/
def hkSearch : List Char → Option (Nat × Option Nat × Nat × Option Nat)
  | [] => none
  | c :: cs =>
    match hkTryAt (c :: cs) with
    | some r => some r
    | none => hkSearch cs

/-! ### The data model of `app/models.py` (the fields the parser sets) -/

/-- `LineChange` of `models.py`: one line of a hunk. -/
structure LineChange where
  content : List Char
  change_type : String
  line_number : Nat
deriving DecidableEq

/-- `Hunk` of `models.py`. -/
structure Hunk where
  old_start : Nat
  old_count : Nat
  new_start : Nat
  new_count : Nat
  lines : List LineChange
deriving DecidableEq

/-- `FilePatch` of `models.py` (the fields `parse_unified_diff`
produces; `language` is never set by the parser). -/
structure FilePatch where
  filename : List Char
  status : String
  additions : Nat
  deletions : Nat
  hunks : List Hunk
deriving DecidableEq

/-! ### `DiffParser.parse_unified_diff` (diff_parser.py lines 13-120)

The Python loop keeps `files`, `current_file` (a dict, possibly
aliased into `files`) and `current_hunks` (a list, aliased into
`current_file['hunks']` after a flush).  The aliasing matters in one
case only: when a `diff --git` line fails the filename pattern the
previous dict is appended to `files` but stays the current one, so
later mutations (status lines, addition counts, new hunks) are still
visible in the already-appended copy, and the same dict is appended
again at the next flush.  The state below models this exactly:
`pending = some (acc, k)` is the current accumulator together with
the number `k` of copies of it already sitting in `files`, all of
which share the accumulator's final field values and the final
`curHunks`; `done` holds the dicts that can no longer be touched. -/

/-- The mutable `current_file` dict, minus its `hunks` slot (every
read of `hunks` happens through the alias with `current_hunks`). -/
structure FileAcc where
  filename : List Char
  status : String
  additions : Nat
  deletions : Nat
deriving DecidableEq

/-- Parser state: frozen output dicts, the current accumulator with
its alias count, and `current_hunks`. -/
structure PSt where
  done : List FilePatch
  pending : Option (FileAcc × Nat)
  curHunks : List Hunk
deriving DecidableEq

/-- Materialise a file dict: `current_file['hunks'] = current_hunks`
followed by the read in `FilePatch(**f)`. -/
def matFile (acc : FileAcc) (hunks : List Hunk) : FilePatch :=
  ⟨acc.filename, acc.status, acc.additions, acc.deletions, hunks⟩

/-- Flush point (`if current_file: ... files.append(current_file)`,
lines 29-31 and 111-113): the `k` copies already in `files` and the
newly appended one are the same dict, so all `k + 1` materialise with
the current field values and the current hunks. -/
def flushFiles (st : PSt) : List FilePatch :=
  match st.pending with
  | some (acc, k) => st.done ++ List.replicate (k + 1) (matFile acc st.curHunks)
  | none => st.done

/-- A `diff --git` line (lines 27-44): flush the previous file, then
start a new accumulator when the filename pattern matches; when it
does not match, `current_file` and `current_hunks` are left as they
were, so the flushed dict stays current with one more copy in
`files`. -/
def onMarker (line : List Char) (st : PSt) : PSt :=
  match fnSearch line with
  | some fname =>
    { done := flushFiles st
      pending := some (⟨fname, "modified", 0, 0⟩, 0)
      curHunks := [] }
  | none =>
    match st.pending with
    | some (acc, k) => { st with pending := some (acc, k + 1) }
    | none => st

/-- `new file` / `deleted file` lines (lines 47-52). -/
def setStat (s : String) (st : PSt) : PSt :=
  match st.pending with
  | some (acc, k) => { st with pending := some ({ acc with status := s }, k) }
  | none => st

/-- Append a parsed hunk (line 105) and, when a current file exists,
add the addition/deletion counts accumulated over its body (lines
83-84 and 92-93; `current_file` cannot change during the inner
loop, so counting per hunk is the same as counting per line). -/
def addHunk (h : Hunk) (a d : Nat) (st : PSt) : PSt :=
  match st.pending with
  | some (acc, k) =>
    { st with
        pending := some ({ acc with
          additions := acc.additions + a
          deletions := acc.deletions + d }, k)
        curHunks := st.curHunks ++ [h] }
  | none => { st with curHunks := st.curHunks ++ [h] }

/-- Stop condition of the inner hunk loop (line 73). -/
def hunkStopB (l : List Char) : Bool :=
  startsWithL "@@".toList l || startsWithL "diff".toList l

/-- The inner hunk loop (lines 72-103): two independent cursors
initialised from the header; `+` (not `+++`) records an added line at
the new cursor and moves only it, `-` (not `---`) records a removed
line at the old cursor and moves only it, a leading space records a
context line at the new cursor and moves both; anything else is
skipped.  Returns the recorded lines and the number of additions and
deletions. -/
def processBody (old_start new_start : Nat) :
    List (List Char) → (List LineChange × Nat × Nat)
  | [] => ([], 0, 0)
  | l :: rest =>
    if startsWithL "+".toList l && !startsWithL "+++".toList l then
      let r := processBody old_start (new_start + 1) rest
      (⟨l.drop 1, "add", new_start⟩ :: r.1, r.2.1 + 1, r.2.2)
    else if startsWithL "-".toList l && !startsWithL "---".toList l then
      let r := processBody (old_start + 1) new_start rest
      (⟨l.drop 1, "remove", old_start⟩ :: r.1, r.2.1, r.2.2 + 1)
    else if startsWithL " ".toList l then
      let r := processBody (old_start + 1) (new_start + 1) rest
      (⟨l.drop 1, "context", new_start⟩ :: r.1, r.2.1, r.2.2)
    else processBody old_start new_start rest

/-- The outer loop of `parse_unified_diff` (lines 23-108), as
recursion over the remaining split lines.  The Python index `i` only
ever moves forward: each branch consumes the current line, and the
hunk branch additionally consumes the hunk body (`i -= 1; i += 1`
leaves `i` on the first stopping line, which is exactly the head of
the remaining `dropWhile`).  The `fuel` argument makes the recursion
structural so that the kernel can evaluate it; the number of split
lines is always enough fuel because every step consumes at least one
line, so the `fuel = 0` case (returning the flush, like the loop
exit) is never reached from `parse_unified_diff`. -/
def parseLines : Nat → List (List Char) → PSt → List FilePatch
  | _, [], st => flushFiles st
  | 0, _ :: _, st => flushFiles st
  | fuel + 1, line :: rest, st =>
    if startsWithL "diff --git".toList line then
      parseLines fuel rest (onMarker line st)
    else if startsWithL "new file".toList line then
      parseLines fuel rest (setStat "added" st)
    else if startsWithL "deleted file".toList line then
      parseLines fuel rest (setStat "removed" st)
    else if startsWithL "@@".toList line then
      match hkSearch line with
      | some (os, oc, ns, nc) =>
        let body := rest.takeWhile (fun l => !hunkStopB l)
        let r := processBody os ns body
        parseLines fuel (rest.dropWhile (fun l => !hunkStopB l))
          (addHunk ⟨os, oc.getD 1, ns, nc.getD 1, r.1⟩ r.2.1 r.2.2 st)
      | none => parseLines fuel rest st
    else parseLines fuel rest st

/-- `DiffParser.parse_unified_diff` (diff_parser.py line 14). -/
def parse_unified_diff (diff_text : String) : List FilePatch :=
  parseLines (splitNl diff_text.toList).length (splitNl diff_text.toList) ⟨[], none, []⟩

/-! ### The same loops, embedded literally with the Python index `i`

`parse_unified_diff` in the source is a `while i < len(lines)` loop
with an inner `while` for hunk bodies; the only operations in it that
can raise at all are the `lines[i]` accesses, and a loop that failed
to advance would hang.  `outerLoopE` and `innerLoopE` embed the loops
verbatim: indexing is checked (`Except.error` on an out-of-range
access, like `IndexError`), and running out of `fuel` is an error
(standing for non-termination).  The equivalence theorem for C1 shows
that with fuel `length + 1` no error path is ever taken and the
result is exactly `parseLines`. -/

/-- Python `lines[i]`: checked list indexing. -/
def getLineE (lines : List (List Char)) (i : Nat) : Except String (List Char) :=
  match lines[i]? with
  | some l => Except.ok l
  | none => Except.error "IndexError"

/-- The inner hunk-body loop (diff_parser.py lines 72-103) with the
explicit index: runs while `i < len(lines)` and `lines[i]` is not a
stopping line, accumulating the recorded line changes and the
addition/deletion counts, and returns the final index. -/
def innerLoopE (lines : List (List Char)) :
    Nat → Nat → Nat → Nat → List LineChange → Nat → Nat →
    Except String (Nat × List LineChange × Nat × Nat)
  | 0, _, _, _, _, _, _ => Except.error "inner loop did not terminate"
  | fuel + 1, i, os, ns, acc, a, d =>
    if i < lines.length then
      match getLineE lines i with
      | Except.error e => Except.error e
      | Except.ok hl =>
        if !hunkStopB hl then
          if startsWithL "+".toList hl && !startsWithL "+++".toList hl then
            innerLoopE lines fuel (i + 1) os (ns + 1)
              (acc ++ [⟨hl.drop 1, "add", ns⟩]) (a + 1) d
          else if startsWithL "-".toList hl && !startsWithL "---".toList hl then
            innerLoopE lines fuel (i + 1) (os + 1) ns
              (acc ++ [⟨hl.drop 1, "remove", os⟩]) a (d + 1)
          else if startsWithL " ".toList hl then
            innerLoopE lines fuel (i + 1) (os + 1) (ns + 1)
              (acc ++ [⟨hl.drop 1, "context", ns⟩]) a d
          else
            innerLoopE lines fuel (i + 1) os ns acc a d
        else Except.ok (i, acc, a, d)
    else Except.ok (i, acc, a, d)

/-- The outer `while i < len(lines)` loop (diff_parser.py lines
23-108) with the explicit index; after the inner loop ends at `j`
the source does `i -= 1` and then `i += 1`, so the outer loop
resumes at `j - 1 + 1`. -/
def outerLoopE (lines : List (List Char)) :
    Nat → Nat → PSt → Except String (List FilePatch)
  | 0, _, _ => Except.error "outer loop did not terminate"
  | fuel + 1, i, st =>
    if i < lines.length then
      match getLineE lines i with
      | Except.error e => Except.error e
      | Except.ok line =>
        if startsWithL "diff --git".toList line then
          outerLoopE lines fuel (i + 1) (onMarker line st)
        else if startsWithL "new file".toList line then
          outerLoopE lines fuel (i + 1) (setStat "added" st)
        else if startsWithL "deleted file".toList line then
          outerLoopE lines fuel (i + 1) (setStat "removed" st)
        else if startsWithL "@@".toList line then
          match hkSearch line with
          | some (os, oc, ns, nc) =>
            match innerLoopE lines fuel (i + 1) os ns [] 0 0 with
            | Except.error e => Except.error e
            | Except.ok (j, lns, a, d) =>
              outerLoopE lines fuel (j - 1 + 1)
                (addHunk ⟨os, oc.getD 1, ns, nc.getD 1, lns⟩ a d st)
          | none => outerLoopE lines fuel (i + 1) st
        else outerLoopE lines fuel (i + 1) st
    else Except.ok (flushFiles st)

/-- `parse_unified_diff`, embedded with the literal loop structure:
any `IndexError` or failure of the loops to terminate would surface
as `Except.error`. -/
def parse_unified_diffE (diff_text : String) : Except String (List FilePatch) :=
  outerLoopE (splitNl diff_text.toList) ((splitNl diff_text.toList).length + 1) 0
    ⟨[], none, []⟩

/-- A line that begins a new file section (`diff --git`, line 27). -/
def isMarkerLine (l : List Char) : Bool :=
  startsWithL "diff --git".toList l

/-- Number of copies of the current accumulator that a final flush
would add to the output (`k` aliased copies plus the appended one),
zero when no file is open. -/
def pendCount (st : PSt) : Nat :=
  match st.pending with
  | some (_, k) => k + 1
  | none => 0

/-! ### The per-file recount of the summary stage (C10)

`SummaryAgent._generate_file_reviews` (summary_agent.py lines
109-112) recounts a file's additions and deletions by scanning all
hunk lines for `change_type == "add"` / `"remove"`. -/

/-- Added lines recorded in one hunk. -/
def hunkAddCount (h : Hunk) : Nat :=
  h.lines.countP (fun lc => lc.change_type == "add")

/-- Removed lines recorded in one hunk. -/
def hunkRemCount (h : Hunk) : Nat :=
  h.lines.countP (fun lc => lc.change_type == "remove")

/-- Added lines over a hunk list. -/
def hunksAdd (hs : List Hunk) : Nat := (hs.map hunkAddCount).sum

/-- Removed lines over a hunk list. -/
def hunksRem (hs : List Hunk) : Nat := (hs.map hunkRemCount).sum

/-- The summary stage's recount of a file's additions
(summary_agent.py lines 109-110). -/
def summaryAdditions (fp : FilePatch) : Nat := hunksAdd fp.hunks

/-- The summary stage's recount of a file's deletions
(summary_agent.py lines 111-112). -/
def summaryDeletions (fp : FilePatch) : Nat := hunksRem fp.hunks

/-- The parser's running totals agree with the recount. -/
def patchConsistent (fp : FilePatch) : Prop :=
  fp.additions = summaryAdditions fp ∧ fp.deletions = summaryDeletions fp

/-- Invariant carried through the parser state: finished dicts are
consistent, and the open accumulator's totals count exactly the
current hunks. -/
def stConsistent (st : PSt) : Prop :=
  (∀ fp ∈ st.done, patchConsistent fp) ∧
  (∀ acc k, st.pending = some (acc, k) →
    acc.additions = hunksAdd st.curHunks ∧ acc.deletions = hunksRem st.curHunks)

/-! ### The three analyzers and `_safe_agent_call` (C6)

`ReviewerAgent.analyze`, `SecurityAgent.analyze` and
`PerformanceAgent.analyze` are the same loop (reviewer_agent.py lines
15-66 and the two copies): for each file dict, skip it when it has no
added lines or a blank snippet, call the Gemini backend inside a
per-file `try`, and on an exception log and `continue`.  The backend
call is modelled as a function from the file to `Except`: an
exception, or a parsed JSON dict whose `issues` key may be absent
(`generate_json_response` returns a sentinel dict without `issues`
when the reply does not parse).  `_safe_agent_call`
(review_controller.py lines 133-145) wraps a whole agent call and
returns `[]` on any exception. -/

/-- One entry of a file dict's `added_lines` list. -/
structure AgentLine where
  content : List Char
  line_number : Option Nat
deriving DecidableEq

/-- The file dict fields the analyzers read (`file_name`,
`added_lines`). -/
structure AgentFile where
  file_name : String
  added_lines : List AgentLine
deriving DecidableEq

/-- An issue dict in the shape the analysis prompts demand. -/
structure GIssue where
  typ : String
  severity : String
  message : String
  suggestion : String
deriving DecidableEq

/-- A finding dict: `{"file": ..., "line": ..., "agent": ..., **issue}`
for analyzer findings, `{"file": ..., "agent": ..., **issue}` for
refined findings (absent keys are `none`). -/
structure Finding where
  file : String
  agent : String
  line : Option Nat
  typ : Option String
  severity : Option String
  message : Option String
  suggestion : Option String
deriving DecidableEq

/-- Python `"\n".join`. -/
def joinNl : List (List Char) → List Char
  | [] => []
  | [l] => l
  | l :: l2 :: ls => l ++ '\n' :: joinNl (l2 :: ls)

/-- Python `not code_snippet.strip()`: true when every character is
whitespace. -/
def isBlankSnippet (cs : List Char) : Bool := cs.all isPySpace

/-- The finding dict built for one backend issue (reviewer_agent.py
lines 53-58): file, first added line's number, agent name, and the
issue's own keys. -/
def mkFinding (name : String) (f : AgentFile) (iss : GIssue) : Finding :=
  { file := f.file_name
    agent := name
    line := match f.added_lines with
      | [] => none
      | al :: _ => al.line_number
    typ := some iss.typ
    severity := some iss.severity
    message := some iss.message
    suggestion := some iss.suggestion }

/-- One iteration of the analyzer loop (reviewer_agent.py lines
23-63): skip empty or blank files, call the backend in a `try`, and
contribute nothing when it raises or its reply has no non-empty
`issues` list. -/
def perFileFindings (name : String)
    (backend : AgentFile → Except Unit (Option (List GIssue)))
    (f : AgentFile) : List Finding :=
  if f.added_lines.isEmpty then []
  else if isBlankSnippet (joinNl (f.added_lines.map (fun al => al.content))) then []
  else
    match backend f with
    | Except.error _ => []
    | Except.ok none => []
    | Except.ok (some issues) =>
      if issues.isEmpty then [] else issues.map (mkFinding name f)

/-- An analyzer's `analyze` over all parsed files. -/
def analyzeAgent (name : String)
    (backend : AgentFile → Except Unit (Option (List GIssue)))
    (files : List AgentFile) : List Finding :=
  files.flatMap (perFileFindings name backend)

/-- `_safe_agent_call` (review_controller.py lines 133-145): any
exception from the agent call becomes `[]`. -/
def safeAgentCall (r : Except Unit (List Finding)) : List Finding :=
  match r with
  | Except.ok l => l
  | Except.error _ => []

/-- The `comments` aggregation of `_run_all_agents`
(review_controller.py lines 100-126): the three analyzers are invoked
through `_safe_agent_call` and their results concatenated in order. -/
def combinedComments
    (b1 b2 b3 : AgentFile → Except Unit (Option (List GIssue)))
    (files : List AgentFile) : List Finding :=
  safeAgentCall (Except.ok (analyzeAgent "Code Reviewer" b1 files)) ++
  safeAgentCall (Except.ok (analyzeAgent "Security Auditor" b2 files)) ++
  safeAgentCall (Except.ok (analyzeAgent "Performance Analyst" b3 files))

/-- A concrete analyzer backend used by the C6 witness. -/
def c6issue : GIssue := ⟨"code_quality", "low", "m", "s"⟩

/-- A concrete file on which the failing backend raises. -/
def c6X : AgentFile := ⟨"x.py", [⟨['x'], some 1⟩]⟩

/-- A second file, analysed normally. -/
def c6Y : AgentFile := ⟨"y.py", [⟨['y'], some 2⟩]⟩

/-- The healthy code-review backend of the C6 witness. -/
def c6b1 : AgentFile → Except Unit (Option (List GIssue)) :=
  fun _ => Except.ok (some [c6issue])

/-- The code-review backend that raises exactly on `c6X`. -/
def c6b1' : AgentFile → Except Unit (Option (List GIssue)) :=
  fun f => if f = c6X then Except.error () else c6b1 f

/-- The security backend of the C6 witness. -/
def c6b2 : AgentFile → Except Unit (Option (List GIssue)) :=
  fun _ => Except.ok (some [⟨"security", "high", "m2", "s2"⟩])

/-- The performance backend of the C6 witness (a reply without an
`issues` key). -/
def c6b3 : AgentFile → Except Unit (Option (List GIssue)) :=
  fun _ => Except.ok none

/-! ### `SeniorEngineerAgent.refine` (C7)

senior_engineer_agent.py lines 16-95: all agent findings are pooled,
grouped by file (insertion order), and refined per file through
`generate_json_response`.  That backend call either raises (the
per-file `except` then falls back to the raw findings, line 92), or
returns a parsed JSON dict; when the dict lacks the `refined_issues`
key — which is exactly what the JSON-parse-failure sentinel
`{"files": [], "error": ...}` of gemini_service.py line 81 looks
like — nothing is appended for that file. -/

/-- A refined issue in the shape the refinement prompt demands. -/
structure RefinedIssue where
  typ : String
  severity : String
  message : String
  suggestion : String
deriving DecidableEq

/-- The refined finding dict `{"file": ..., "agent": ..., **issue}`
(senior_engineer_agent.py lines 83-87). -/
def mkRefined (file_name : String) (r : RefinedIssue) : Finding :=
  { file := file_name
    agent := "Senior Engineer"
    line := none
    typ := some r.typ
    severity := some r.severity
    message := some r.message
    suggestion := some r.suggestion }

/-- One iteration of the refinement loop (lines 44-92): backend error
means fall back to the raw findings; a reply without `refined_issues`
contributes nothing; a reply with the key contributes the mapped
refined findings. -/
def refineFile (backend : String → List Finding → Except Unit (Option (List RefinedIssue)))
    (file_name : String) (issues : List Finding) : List Finding :=
  match backend file_name issues with
  | Except.error _ => issues
  | Except.ok none => []
  | Except.ok (some rs) => rs.map (mkRefined file_name)

/-- File keys in first-occurrence order (the insertion order of the
`issues_by_file` dict, lines 34-39). -/
def fileKeys (all : List Finding) : List String :=
  all.foldl (fun ks i => if ks.contains i.file then ks else ks ++ [i.file]) []

/-- The `issues_by_file` grouping: each key with its findings in
original order. -/
def groupByFile (all : List Finding) : List (String × List Finding) :=
  (fileKeys all).map (fun k => (k, all.filter (fun i => i.file == k)))

/-- `SeniorEngineerAgent.refine`: pool the four agent-result lists
(the `engineering_feedback` slot is skipped; `comments` is still `[]`
at call time but is pooled like the rest), return `[]` when nothing
to refine, else refine file by file. -/
def seniorRefine
    (backend : String → List Finding → Except Unit (Option (List RefinedIssue)))
    (code_review security performance comments : List Finding) : List Finding :=
  let all := code_review ++ security ++ performance ++ comments
  if all.isEmpty then []
  else (groupByFile all).flatMap (fun p => refineFile backend p.1 p.2)

/-- The healthy refinement backend of the C7 witness. -/
def c7backend : String → List Finding → Except Unit (Option (List RefinedIssue)) :=
  fun _ _ => Except.ok (some [⟨"security", "high", "m2", "s2"⟩])

/-- The refinement backend that raises exactly for file `x.py`. -/
def c7backend' : String → List Finding → Except Unit (Option (List RefinedIssue)) :=
  fun k iss => if k = "x.py" then Except.error () else c7backend k iss

/-- A raw finding for `x.py` used by the C7 witness. -/
def c7fx : Finding :=
  ⟨"x.py", "Code Reviewer", some 1, some "code_quality", some "high", some "m", some "s"⟩

/-- A raw finding for `y.py` used by the C7 witness. -/
def c7fy : Finding :=
  ⟨"y.py", "Security Auditor", some 2, some "security", some "high", some "n", some "t"⟩

/-! ### `_format_review_comment` (C8)

review_controller.py lines 147-183: a pure formatting function from
the review dict to the comment body.  The dict fields are modelled as
the renderer reads them: absent keys are `none`, and the interpolated
`line` value is modelled as its rendered text. -/

/-- An issue dict as read by the renderer (lines 163-175). -/
structure ReportIssue where
  severity : Option String
  category : Option String
  lineTxt : Option String
  comment : Option String
  suggested_fix : Option String
deriving DecidableEq

/-- One entry of `files_review` as read by the renderer. -/
structure FileReviewR where
  filename : Option String
  issues : Option (List ReportIssue)
deriving DecidableEq

/-- The review dict fields the renderer reads. -/
structure Report where
  summary : Option String
  files_review : Option (List FileReviewR)
deriving DecidableEq

/-- Python `str.upper` on the ASCII category names. -/
def upperStr (s : String) : String := ⟨s.toList.map Char.toUpper⟩

/-- The severity-emoji lookup with default `⚪` (lines 165-169). -/
def severityEmoji (sev : String) : String :=
  if sev = "high" then "🔴"
  else if sev = "medium" then "🟡"
  else if sev = "low" then "🟢"
  else "⚪"

/-- One issue block (lines 164-175). -/
def renderIssue (iss : ReportIssue) : String :=
  severityEmoji (iss.severity.getD "low") ++ " **" ++
    upperStr (iss.category.getD "ISSUE") ++ "** (Line " ++
    iss.lineTxt.getD "N/A" ++ ")\n" ++
  "- " ++ iss.comment.getD "No details" ++ "\n" ++
  (match iss.suggested_fix with
   | some s => if s = "" then "" else "- 💡 *Suggestion:* " ++ s ++ "\n"
   | none => "") ++
  "\n"

/-- String concatenation of a list, mirroring the `comment += ...`
accumulation of the renderer loops. -/
def concatStrs : List String → String
  | [] => ""
  | s :: ss => s ++ concatStrs ss

/-- The issue blocks of one per-file section (lines 163-175): only a
present, non-empty `issues` list contributes. -/
def issuesBlock (iss : Option (List ReportIssue)) : String :=
  match iss with
  | some (i :: is) => concatStrs ((i :: is).map renderIssue)
  | _ => ""

/-- One per-file section (lines 160-175): the file header is always
rendered, then the issue blocks. -/
def renderFileSection (fr : FileReviewR) : String :=
  "#### 📄 `" ++ fr.filename.getD "Unknown" ++ "`\n\n" ++ issuesBlock fr.issues

/-- The optional summary section (lines 154-155). -/
def summarySection (sum : Option String) : String :=
  match sum with
  | some s => "### Summary\n" ++ s ++ "\n\n"
  | none => ""

/-- `_format_review_comment` on a review dict (lines 147-183): header,
optional summary section, then either the detailed findings (when
`files_review` is present and non-empty) or the affirmative line, and
the footer. -/
def formatReviewComment (r : Report) : String :=
  let c1 := "## 🤖 Automated PR Review\n\n"
  let c2 := c1 ++ summarySection r.summary
  let c3 :=
    match r.files_review with
    | some (fr :: frs) =>
      c2 ++ "### Detailed Findings\n\n" ++
        concatStrs ((fr :: frs).map renderFileSection)
    | _ => c2 ++ "✅ No issues found!\n"
  c3 ++ "\n---\n*Generated by AI-powered PR Review Agent*"

/-- Total finding count of a report: the sum over `files_review` of
the per-file issue counts. -/
def totalFindings (r : Report) : Nat :=
  ((r.files_review.getD []).map (fun fr => (fr.issues.getD []).length)).sum

/-- Substring test on char lists (used only to state properties of
the rendered comment). -/
def hasSub (pat : List Char) : List Char → Bool
  | [] => startsWithL pat []
  | c :: cs => startsWithL pat (c :: cs) || hasSub pat cs

/-! ### Startup and credential validation (C9)

settings.py reads `GITHUB_TOKEN` and `GEMINI_API_KEY` with default
`""` into a `Settings()` instance and defines `validate_settings`
(lines 42-53), but the call to it is commented out (line 56), so it
never runs.  More importantly, the package `app/config` has no
`__init__.py` (only `app/agents` has one), so
`from app.config import settings` — written in logger.py line 3,
github_service.py line 3 and summary_agent.py line 3 — binds the
submodule `app.config.settings` itself, not the `Settings()` instance
created inside it.  Every access to an instance field on that name
(`settings.log_level`, `settings.github_token`, ...) therefore raises
`AttributeError`.  The first such access on the import chain of
`main.py` (review_routes → review_controller → github_service →
diff_parser, whose module-level `logger = setup_logger()` evaluates
`settings.log_level` in logger.py line 10, before `getattr` is even
called) aborts the process for every environment, before
`ReviewController()` and hence long before `GeminiConfig.__init__`
(gemini_client.py lines 11-18, which reads `os.getenv` directly and
would raise `ValueError` on a missing Gemini key).  An unset
environment variable is modelled as the empty string (both are falsy
in the checks). -/

/-- The two credential environment variables. -/
structure EnvVars where
  github_token : String
  gemini_api_key : String
deriving DecidableEq

/-- `validate_settings` (settings.py lines 42-53): collect an error
for each missing credential and raise when any was collected.  Inside
settings.py the name `settings` is the instance, so this function
would work — but nothing ever calls it. -/
def validate_settings (e : EnvVars) : Except String Unit :=
  let errors :=
    (if e.github_token = "" then ["GITHUB_TOKEN environment variable is not set"] else []) ++
    (if e.gemini_api_key = "" then ["GEMINI_API_KEY environment variable is not set"] else [])
  if errors.isEmpty then Except.ok () else Except.error "Configuration errors"

/-- `GeminiConfig.__init__` (gemini_client.py lines 11-18): reads the
key through `os.getenv` directly, so it is unaffected by the
module-binding problem — but startup never reaches it. -/
def geminiConfigInit (e : EnvVars) : Except String Unit :=
  if e.gemini_api_key = "" then
    Except.error "GEMINI_API_KEY not found in environment variables."
  else Except.ok ()

/-- `GitHubConfig.__init__` (github_client.py lines 11-18); defined in
the repository but never constructed on the startup path. -/
def githubConfigInit (e : EnvVars) : Except String Unit :=
  if e.github_token = "" then
    Except.error "GITHUB_TOKEN not found in environment variables."
  else Except.ok ()

/-- The names bound at the top level of the module
`app/config/settings.py`: its imports and definitions.  Because
`app/config` has no `__init__.py`, these are the only attributes the
name bound by `from app.config import settings` has. -/
def settingsModuleNames : List String :=
  ["BaseSettings", "Field", "Optional", "os", "load_dotenv",
   "Settings", "settings", "validate_settings"]

/-- Attribute access on the bound `settings` name: a top-level name of
the module resolves; any `Settings` instance field (`log_level`,
`github_token`, `gemini_api_key`, `api_timeout`, ...) does not and
raises `AttributeError`. -/
def settingsModuleAttr (name : String) : Except String Unit :=
  if settingsModuleNames.contains name then Except.ok ()
  else Except.error
    ("AttributeError: module app.config.settings has no attribute " ++ name)

/-- The module-scope `logger = setup_logger()` of diff_parser.py line
6, the first statement on the import chain to touch the bound
`settings` name: logger.py line 10 evaluates `settings.log_level`. -/
def setupLoggerInit : Except String Unit := settingsModuleAttr "log_level"

/-- `GitHubService.__init__` (github_service.py lines 10-17): performs
no credential check, but its `self.token = settings.github_token`
reads an instance field off the bound module. -/
def githubServiceInit (_e : EnvVars) : Except String Unit :=
  settingsModuleAttr "github_token"

/-- The import-time startup path of `main.py`: importing
review_routes imports the controller, whose imports run
`setup_logger()` while loading diff_parser; then `ReviewController()`
(review_routes.py line 8) builds `GitHubService` and then
`GeminiService`/`GeminiConfig` (review_controller.py lines 16-17).
`validate_settings` is never invoked anywhere on this path. -/
def appStartup (e : EnvVars) : Except String Unit := do
  setupLoggerInit
  githubServiceInit e
  geminiConfigInit e

/-! ### Theorems -/

theorem length_dropWhile_le' {α : Type} (p : α → Bool) (l : List α) :
    (l.dropWhile p).length ≤ l.length := by
  induction l with
  | nil => simp
  | cons x xs ih =>
    by_cases h : p x
    · simp only [List.dropWhile, h]
      exact Nat.le_succ_of_le ih
    · simp [List.dropWhile, h]

theorem getLineE_ok (lines : List (List Char)) (i : Nat) (h : i < lines.length) :
    getLineE lines i = Except.ok lines[i] := by
  simp [getLineE, List.getElem?_eq_getElem h]

theorem takeWhile_cons' {α : Type} (p : α → Bool) (x : α) (xs : List α) :
    (x :: xs).takeWhile p = if p x then x :: xs.takeWhile p else [] := by
  cases h : p x <;> simp [List.takeWhile, h]

theorem dropWhile_eq_drop_len_takeWhile {α : Type} (p : α → Bool) (l : List α) :
    l.dropWhile p = l.drop (l.takeWhile p).length := by
  induction l with
  | nil => simp
  | cons x xs ih =>
    by_cases h : p x
    · simp [List.dropWhile, List.takeWhile, h, ih]
    · simp [List.dropWhile, List.takeWhile, h]

theorem innerLoopE_spec (lines : List (List Char)) :
    ∀ fuel i os ns acc a d, lines.length - i < fuel →
      innerLoopE lines fuel i os ns acc a d =
        Except.ok
          (i + ((lines.drop i).takeWhile (fun l => !hunkStopB l)).length,
           acc ++ (processBody os ns ((lines.drop i).takeWhile (fun l => !hunkStopB l))).1,
           a + (processBody os ns ((lines.drop i).takeWhile (fun l => !hunkStopB l))).2.1,
           d + (processBody os ns ((lines.drop i).takeWhile (fun l => !hunkStopB l))).2.2) := by
  intro fuel
  induction fuel with
  | zero => intro i os ns acc a d h; omega
  | succ f ih =>
    intro i os ns acc a d h
    by_cases hi : i < lines.length
    · have hdrop : lines.drop i = lines[i] :: lines.drop (i + 1) :=
        List.drop_eq_getElem_cons hi
      have hf : lines.length - (i + 1) < f := by omega
      rw [hdrop, takeWhile_cons']
      simp only [innerLoopE, if_pos hi, getLineE_ok lines i hi]
      cases hstop : hunkStopB lines[i] with
      | true => simp [processBody]
      | false =>
        simp only [Bool.not_false, if_true]
        cases hadd : (startsWithL "+".toList lines[i] &&
            !startsWithL "+++".toList lines[i]) with
        | true =>
          rw [if_pos rfl, ih (i + 1) os (ns + 1) _ (a + 1) d hf]
          simp only [processBody, hadd, if_true, List.length_cons,
            Except.ok.injEq, Prod.mk.injEq]
          and_intros <;> first | rfl | omega | simp
        | false =>
          rw [if_neg (by simp)]
          cases hrem : (startsWithL "-".toList lines[i] &&
              !startsWithL "---".toList lines[i]) with
          | true =>
            rw [if_pos rfl, ih (i + 1) (os + 1) ns _ a (d + 1) hf]
            simp only [processBody, hadd, hrem, if_true, Bool.false_eq_true,
              if_false, List.length_cons, Except.ok.injEq, Prod.mk.injEq]
            and_intros <;> first | rfl | omega | simp
          | false =>
            rw [if_neg (by simp)]
            cases hctx : startsWithL " ".toList lines[i] with
            | true =>
              rw [if_pos rfl, ih (i + 1) (os + 1) (ns + 1) _ a d hf]
              simp only [processBody, hadd, hrem, hctx, if_true,
                Bool.false_eq_true, if_false, List.length_cons,
                Except.ok.injEq, Prod.mk.injEq]
              and_intros <;> first | rfl | omega | simp
            | false =>
              rw [if_neg (by simp), ih (i + 1) os ns acc a d hf]
              simp only [processBody, hadd, hrem, hctx, Bool.false_eq_true,
                if_false, List.length_cons, Except.ok.injEq, Prod.mk.injEq]
              and_intros <;> first | rfl | omega | simp
    · have hdrop : lines.drop i = [] := List.drop_eq_nil_of_le (by omega)
      simp only [innerLoopE, if_neg hi]
      simp [hdrop, processBody]

theorem parseLines_fuel :
    ∀ f1 f2 input st, input.length ≤ f1 → input.length ≤ f2 →
      parseLines f1 input st = parseLines f2 input st := by
  intro f1
  induction f1 with
  | zero =>
    intro f2 input st h1 h2
    cases input with
    | nil => cases f2 <;> rfl
    | cons line rest => simp at h1
  | succ m ih =>
    intro f2 input st h1 h2
    cases input with
    | nil => cases f2 <;> rfl
    | cons line rest =>
      cases f2 with
      | zero => simp at h2
      | succ n =>
        have hr : rest.length ≤ m := by simp at h1; omega
        have hrn : rest.length ≤ n := by simp at h2; omega
        have hd : (rest.dropWhile (fun l => !hunkStopB l)).length ≤ m :=
          le_trans (length_dropWhile_le' _ _) hr
        have hdn : (rest.dropWhile (fun l => !hunkStopB l)).length ≤ n :=
          le_trans (length_dropWhile_le' _ _) hrn
        simp only [parseLines]
        repeat' split
        all_goals first
          | exact ih n rest _ hr hrn
          | exact ih n (rest.dropWhile (fun l => !hunkStopB l)) _ hd hdn

theorem outerLoopE_spec (lines : List (List Char)) :
    ∀ fuel i st, lines.length - i < fuel →
      outerLoopE lines fuel i st =
        Except.ok (parseLines (lines.drop i).length (lines.drop i) st) := by
  intro fuel
  induction fuel with
  | zero => intro i st h; omega
  | succ f ih =>
    intro i st h
    by_cases hi : i < lines.length
    · have hdrop : lines.drop i = lines[i] :: lines.drop (i + 1) :=
        List.drop_eq_getElem_cons hi
      have hnext : lines.length - (i + 1) < f := by omega
      rw [hdrop]
      simp only [outerLoopE, if_pos hi, getLineE_ok lines i hi,
        List.length_cons, parseLines]
      by_cases hA : startsWithL "diff --git".toList lines[i] = true
      · simp only [hA, if_true]
        exact ih (i + 1) _ hnext
      · simp only [hA, Bool.false_eq_true, if_false]
        by_cases hB : startsWithL "new file".toList lines[i] = true
        · simp only [hB, if_true]
          exact ih (i + 1) _ hnext
        · simp only [hB, Bool.false_eq_true, if_false]
          by_cases hC : startsWithL "deleted file".toList lines[i] = true
          · simp only [hC, if_true]
            exact ih (i + 1) _ hnext
          · simp only [hC, Bool.false_eq_true, if_false]
            by_cases hD : startsWithL "@@".toList lines[i] = true
            · simp only [hD, if_true]
              cases hk : hkSearch lines[i] with
              | none => exact ih (i + 1) _ hnext
              | some q =>
                obtain ⟨os, oc, ns, nc⟩ := q
                dsimp only
                rw [innerLoopE_spec lines f (i + 1) os ns [] 0 0 hnext]
                simp only [List.nil_append, Nat.zero_add]
                have hj : i + 1 + ((lines.drop (i + 1)).takeWhile
                    (fun l => !hunkStopB l)).length - 1 + 1 =
                    i + 1 + ((lines.drop (i + 1)).takeWhile
                    (fun l => !hunkStopB l)).length := by omega
                rw [hj]
                have hdw : (lines.drop (i + 1)).dropWhile (fun l => !hunkStopB l) =
                    lines.drop (i + 1 + ((lines.drop (i + 1)).takeWhile
                      (fun l => !hunkStopB l)).length) := by
                  rw [dropWhile_eq_drop_len_takeWhile, List.drop_drop]
                have hlen : lines.length - (i + 1 + ((lines.drop (i + 1)).takeWhile
                    (fun l => !hunkStopB l)).length) < f := by omega
                rw [ih _ _ hlen, ← hdw]
                rw [parseLines_fuel ((lines.drop (i + 1)).dropWhile
                      (fun l => !hunkStopB l)).length (lines.drop (i + 1)).length
                    ((lines.drop (i + 1)).dropWhile (fun l => !hunkStopB l)) _
                    (le_refl _) (length_dropWhile_le' _ _)]
            · simp only [hD, Bool.false_eq_true, if_false]
              exact ih (i + 1) _ hnext
    · have hdrop : lines.drop i = [] := List.drop_eq_nil_of_le (by omega)
      simp only [outerLoopE, if_neg hi, hdrop, List.length_nil]
      rfl

/-- C1: for every input string the literally-embedded loops of
`parse_unified_diff` take no error path (no `IndexError`, both loops
terminate) and return the parsed list of file patches: the parser is
total and never raises. -/
theorem parse_unified_diffE_ok (diff_text : String) :
    parse_unified_diffE diff_text = Except.ok (parse_unified_diff diff_text) := by
  unfold parse_unified_diffE parse_unified_diff
  have h := outerLoopE_spec (splitNl diff_text.toList)
    ((splitNl diff_text.toList).length + 1) 0 ⟨[], none, []⟩ (by omega)
  simpa using h

theorem flushFiles_length (st : PSt) :
    (flushFiles st).length = st.done.length + pendCount st := by
  cases hp : st.pending with
  | none => simp [flushFiles, pendCount, hp]
  | some p => obtain ⟨acc, k⟩ := p; simp [flushFiles, pendCount, hp]

theorem startsWithL_append (p1 p2 l : List Char)
    (h : startsWithL (p1 ++ p2) l = true) : startsWithL p1 l = true := by
  induction p1 generalizing l with
  | nil => rfl
  | cons c cs ih =>
    cases l with
    | nil => simp [startsWithL] at h
    | cons x xs =>
      simp only [List.cons_append, startsWithL, Bool.and_eq_true] at h ⊢
      exact ⟨h.1, ih xs h.2⟩

theorem marker_is_stop (l : List Char) (h : isMarkerLine l = true) :
    hunkStopB l = true := by
  have hd : startsWithL "diff".toList l = true := by
    have : "diff --git".toList = "diff".toList ++ " --git".toList := by decide
    rw [isMarkerLine, this] at h
    exact startsWithL_append _ _ _ h
  simp only [hunkStopB, Bool.or_eq_true]
  exact Or.inr hd

theorem countP_takeWhile_zero (input : List (List Char))
    (h : ∀ l ∈ input, isMarkerLine l = true → hunkStopB l = true) :
    (input.takeWhile (fun l => !hunkStopB l)).countP isMarkerLine = 0 := by
  induction input with
  | nil => simp
  | cons x xs ih =>
    by_cases hx : hunkStopB x
    · simp [takeWhile_cons', hx]
    · rw [takeWhile_cons']
      simp only [hx, Bool.not_false, if_true, List.countP_cons]
      have hxm : isMarkerLine x = false := by
        by_contra hc
        simp only [Bool.not_eq_false] at hc
        exact hx (h x (by simp) hc)
      rw [ih (fun l hl => h l (by simp [hl]))]
      simp [hxm]

theorem countP_drop_split (p q : List Char → Bool) (l : List (List Char)) :
    l.countP p = (l.takeWhile q).countP p + (l.dropWhile q).countP p := by
  conv_lhs => rw [← List.takeWhile_append_dropWhile q l]
  rw [List.countP_append]

/-- Shape-preservation facts used by the counting arguments. -/
theorem setStat_shape (s : String) (st : PSt) :
    (setStat s st).done = st.done ∧ pendCount (setStat s st) = pendCount st := by
  cases hp : st.pending with
  | none => simp [setStat, pendCount, hp]
  | some p => obtain ⟨acc, k⟩ := p; simp [setStat, pendCount, hp]

theorem addHunk_shape (h : Hunk) (a d : Nat) (st : PSt) :
    (addHunk h a d st).done = st.done ∧ pendCount (addHunk h a d st) = pendCount st := by
  cases hp : st.pending with
  | none => simp [addHunk, pendCount, hp]
  | some p => obtain ⟨acc, k⟩ := p; simp [addHunk, pendCount, hp]

theorem parseLines_marker_count :
    ∀ fuel input st, input.length ≤ fuel →
      (∀ l ∈ input, isMarkerLine l = true → (fnSearch l).isSome) →
      (parseLines fuel input st).length =
        st.done.length + pendCount st + input.countP isMarkerLine := by
  intro fuel
  induction fuel with
  | zero =>
    intro input st h1 h2
    cases input with
    | nil => simp [parseLines, flushFiles_length]
    | cons line rest => simp at h1
  | succ m ih =>
    intro input st h1 h2
    cases input with
    | nil => simp [parseLines, flushFiles_length]
    | cons line rest =>
      have hr : rest.length ≤ m := by simp at h1; omega
      have h2r : ∀ l ∈ rest, isMarkerLine l = true → (fnSearch l).isSome :=
        fun l hl => h2 l (by simp [hl])
      simp only [parseLines]
      by_cases hA : startsWithL "diff --git".toList line = true
      · have hsome : (fnSearch line).isSome := h2 line (by simp) hA
        obtain ⟨fname, hf⟩ := Option.isSome_iff_exists.mp hsome
        simp only [hA, if_true]
        rw [ih rest _ hr h2r]
        simp only [onMarker, hf]
        have hA' : isMarkerLine line = true := hA
        rw [List.countP_cons, flushFiles_length]
        simp only [hA', if_true, pendCount]
        omega
      · simp only [hA, Bool.false_eq_true, if_false]
        have hm : isMarkerLine line = false := by
          simpa [isMarkerLine] using hA
        have hcount : (line :: rest).countP isMarkerLine = rest.countP isMarkerLine := by
          rw [List.countP_cons]; simp [hm]
        rw [hcount]
        by_cases hB : startsWithL "new file".toList line = true
        · simp only [hB, if_true]
          rw [ih rest _ hr h2r, (setStat_shape "added" st).1,
            (setStat_shape "added" st).2]
        · simp only [hB, Bool.false_eq_true, if_false]
          by_cases hC : startsWithL "deleted file".toList line = true
          · simp only [hC, if_true]
            rw [ih rest _ hr h2r, (setStat_shape "removed" st).1,
              (setStat_shape "removed" st).2]
          · simp only [hC, Bool.false_eq_true, if_false]
            by_cases hD : startsWithL "@@".toList line = true
            · simp only [hD, if_true]
              cases hk : hkSearch line with
              | none => exact ih rest _ hr h2r
              | some q =>
                obtain ⟨os, oc, ns, nc⟩ := q
                dsimp only
                have hdl : (rest.dropWhile (fun l => !hunkStopB l)).length ≤ m :=
                  le_trans (length_dropWhile_le' _ _) hr
                have h2d : ∀ l ∈ rest.dropWhile (fun l => !hunkStopB l),
                    isMarkerLine l = true → (fnSearch l).isSome :=
                  fun l hl => h2r l (List.IsSuffix.mem hl (List.dropWhile_suffix _))
                rw [ih _ _ hdl h2d]
                rcases addHunk_shape
                    ⟨os, oc.getD 1, ns, nc.getD 1,
                      (processBody os ns (rest.takeWhile (fun l => !hunkStopB l))).1⟩
                    (processBody os ns (rest.takeWhile (fun l => !hunkStopB l))).2.1
                    (processBody os ns (rest.takeWhile (fun l => !hunkStopB l))).2.2 st
                  with ⟨hd1, hd2⟩
                rw [hd1, hd2, countP_drop_split isMarkerLine (fun l => !hunkStopB l) rest,
                  countP_takeWhile_zero rest (fun l hl hml => marker_is_stop l hml)]
                omega
            · simp only [hD, Bool.false_eq_true, if_false]
              exact ih rest _ hr h2r

/-- C4 (amended): when every `diff --git` line carries a two-path
header that the filename pattern accepts, the parser returns exactly
one `FilePatch` per marker line, truncated final sections included. -/
theorem parse_marker_count (s : String)
    (h : ∀ l ∈ splitNl s.toList, isMarkerLine l = true → (fnSearch l).isSome) :
    (parse_unified_diff s).length = (splitNl s.toList).countP isMarkerLine := by
  unfold parse_unified_diff
  rw [parseLines_marker_count _ _ _ (le_refl _) h]
  simp [pendCount]

theorem parseLines_all_markers_fail :
    ∀ fuel input st, input.length ≤ fuel →
      (∀ l ∈ input, isMarkerLine l = true → fnSearch l = none) →
      st.pending = none →
      parseLines fuel input st = st.done := by
  intro fuel
  induction fuel with
  | zero =>
    intro input st h1 h2 hp
    cases input with
    | nil => simp [parseLines, flushFiles, hp]
    | cons line rest => simp at h1
  | succ m ih =>
    intro input st h1 h2 hp
    cases input with
    | nil => simp [parseLines, flushFiles, hp]
    | cons line rest =>
      have hr : rest.length ≤ m := by simp at h1; omega
      have h2r : ∀ l ∈ rest, isMarkerLine l = true → fnSearch l = none :=
        fun l hl => h2 l (by simp [hl])
      simp only [parseLines]
      by_cases hA : startsWithL "diff --git".toList line = true
      · have hnone : fnSearch line = none := h2 line (by simp) hA
        simp only [hA, if_true, onMarker, hnone, hp]
        exact ih rest st hr h2r hp
      · simp only [hA, Bool.false_eq_true, if_false]
        by_cases hB : startsWithL "new file".toList line = true
        · simp only [hB, if_true, setStat, hp]
          exact ih rest st hr h2r hp
        · simp only [hB, Bool.false_eq_true, if_false]
          by_cases hC : startsWithL "deleted file".toList line = true
          · simp only [hC, if_true, setStat, hp]
            exact ih rest st hr h2r hp
          · simp only [hC, Bool.false_eq_true, if_false]
            by_cases hD : startsWithL "@@".toList line = true
            · simp only [hD, if_true]
              cases hk : hkSearch line with
              | none => exact ih rest st hr h2r hp
              | some q =>
                obtain ⟨os, oc, ns, nc⟩ := q
                dsimp only
                have hdl : (rest.dropWhile (fun l => !hunkStopB l)).length ≤ m :=
                  le_trans (length_dropWhile_le' _ _) hr
                have h2d : ∀ l ∈ rest.dropWhile (fun l => !hunkStopB l),
                    isMarkerLine l = true → fnSearch l = none :=
                  fun l hl => h2r l (List.IsSuffix.mem hl (List.dropWhile_suffix _))
                rw [ih _ _ hdl h2d (by simp [addHunk, hp])]
                simp [addHunk, hp]
            · simp only [hD, Bool.false_eq_true, if_false]
              exact ih rest st hr h2r hp

/-- C5 (amended): a failing filename match never creates a file
record; a diff in which every `diff --git` line fails the pattern
yields no records at all (and in particular no `unknown` sentinel). -/
theorem parse_failed_markers_yield_nothing (s : String)
    (h : ∀ l ∈ splitNl s.toList, isMarkerLine l = true → fnSearch l = none) :
    parse_unified_diff s = [] := by
  unfold parse_unified_diff
  exact parseLines_all_markers_fail _ _ _ (le_refl _) h rfl

theorem processBody_counts :
    ∀ body os ns,
      (processBody os ns body).2.1 =
        (processBody os ns body).1.countP (fun lc => lc.change_type == "add") ∧
      (processBody os ns body).2.2 =
        (processBody os ns body).1.countP (fun lc => lc.change_type == "remove") := by
  intro body
  induction body with
  | nil => intro os ns; simp [processBody]
  | cons l rest ih =>
    intro os ns
    simp only [processBody]
    by_cases h1 : (startsWithL "+".toList l && !startsWithL "+++".toList l) = true
    · simp only [h1, if_true, List.countP_cons]
      exact ⟨by rw [(ih os (ns + 1)).1]; simp, by rw [(ih os (ns + 1)).2]; simp⟩
    · simp only [h1, Bool.false_eq_true, if_false]
      by_cases h2 : (startsWithL "-".toList l && !startsWithL "---".toList l) = true
      · simp only [h2, if_true, List.countP_cons]
        exact ⟨by rw [(ih (os + 1) ns).1]; simp, by rw [(ih (os + 1) ns).2]; simp⟩
      · simp only [h2, Bool.false_eq_true, if_false]
        by_cases h3 : startsWithL " ".toList l = true
        · simp only [h3, if_true, List.countP_cons]
          exact ⟨by rw [(ih (os + 1) (ns + 1)).1]; simp,
                 by rw [(ih (os + 1) (ns + 1)).2]; simp⟩
        · simp only [h3, Bool.false_eq_true, if_false]
          exact ih os ns

theorem flushFiles_consistent (st : PSt) (h : stConsistent st) :
    ∀ fp ∈ flushFiles st, patchConsistent fp := by
  intro fp hfp
  cases hp : st.pending with
  | none =>
    rw [flushFiles, hp] at hfp
    exact h.1 fp hfp
  | some p =>
    obtain ⟨acc, k⟩ := p
    rw [flushFiles, hp] at hfp
    rcases List.mem_append.mp hfp with hd | hrep
    · exact h.1 fp hd
    · have hfp' : fp = matFile acc st.curHunks := List.eq_of_mem_replicate hrep
      obtain ⟨ha, hdl⟩ := h.2 acc k hp
      subst hfp'
      exact ⟨ha, hdl⟩

theorem onMarker_consistent (line : List Char) (st : PSt) (h : stConsistent st) :
    stConsistent (onMarker line st) := by
  rw [onMarker]
  cases hf : fnSearch line with
  | some fname =>
    refine ⟨fun fp hfp => flushFiles_consistent st h fp hfp, ?_⟩
    intro acc k hk
    simp only [Option.some.injEq, Prod.mk.injEq] at hk
    obtain ⟨hacc, _⟩ := hk
    subst hacc
    simp [hunksAdd, hunksRem]
  | none =>
    cases hp : st.pending with
    | none => simpa [hp] using h
    | some p =>
      obtain ⟨acc, k⟩ := p
      simp only [hp]
      refine ⟨h.1, ?_⟩
      intro acc' k' hk
      simp only [Option.some.injEq, Prod.mk.injEq] at hk
      obtain ⟨hacc, _⟩ := hk
      subst hacc
      exact h.2 acc k hp

theorem setStat_consistent (s : String) (st : PSt) (h : stConsistent st) :
    stConsistent (setStat s st) := by
  rw [setStat]
  cases hp : st.pending with
  | none => exact h
  | some p =>
    obtain ⟨acc, k⟩ := p
    refine ⟨h.1, ?_⟩
    intro acc' k' hk
    simp only [Option.some.injEq, Prod.mk.injEq] at hk
    obtain ⟨hacc, _⟩ := hk
    subst hacc
    exact h.2 acc k hp

theorem addHunk_consistent (hk : Hunk) (a d : Nat) (st : PSt)
    (h : stConsistent st) (ha : a = hunkAddCount hk) (hd : d = hunkRemCount hk) :
    stConsistent (addHunk hk a d st) := by
  rw [addHunk]
  cases hp : st.pending with
  | none => exact ⟨h.1, by intro acc k hcontra; simp at hcontra⟩
  | some p =>
    obtain ⟨acc, k⟩ := p
    refine ⟨h.1, ?_⟩
    intro acc' k' hk'
    simp only [Option.some.injEq, Prod.mk.injEq] at hk'
    obtain ⟨hacc, _⟩ := hk'
    subst hacc
    obtain ⟨h1, h2⟩ := h.2 acc k hp
    constructor
    · simp only [hunksAdd, List.map_append, List.sum_append, List.map_cons,
        List.map_nil, List.sum_cons, List.sum_nil]
      rw [← hunksAdd, ← h1, ha]
      omega
    · simp only [hunksRem, List.map_append, List.sum_append, List.map_cons,
        List.map_nil, List.sum_cons, List.sum_nil]
      rw [← hunksRem, ← h2, hd]
      omega

theorem parseLines_consistent :
    ∀ fuel input st, input.length ≤ fuel → stConsistent st →
      ∀ fp ∈ parseLines fuel input st, patchConsistent fp := by
  intro fuel
  induction fuel with
  | zero =>
    intro input st h1 hst
    cases input with
    | nil =>
      intro fp hfp
      rw [parseLines] at hfp
      exact flushFiles_consistent st hst fp hfp
    | cons line rest => simp at h1
  | succ m ih =>
    intro input st h1 hst
    cases input with
    | nil =>
      intro fp hfp
      rw [parseLines] at hfp
      exact flushFiles_consistent st hst fp hfp
    | cons line rest =>
      have hr : rest.length ≤ m := by simp at h1; omega
      simp only [parseLines]
      by_cases hA : startsWithL "diff --git".toList line = true
      · simp only [hA, if_true]
        exact ih rest _ hr (onMarker_consistent line st hst)
      · simp only [hA, Bool.false_eq_true, if_false]
        by_cases hB : startsWithL "new file".toList line = true
        · simp only [hB, if_true]
          exact ih rest _ hr (setStat_consistent "added" st hst)
        · simp only [hB, Bool.false_eq_true, if_false]
          by_cases hC : startsWithL "deleted file".toList line = true
          · simp only [hC, if_true]
            exact ih rest _ hr (setStat_consistent "removed" st hst)
          · simp only [hC, Bool.false_eq_true, if_false]
            by_cases hD : startsWithL "@@".toList line = true
            · simp only [hD, if_true]
              cases hk : hkSearch line with
              | none => exact ih rest _ hr hst
              | some q =>
                obtain ⟨os, oc, ns, nc⟩ := q
                dsimp only
                have hdl : (rest.dropWhile (fun l => !hunkStopB l)).length ≤ m :=
                  le_trans (length_dropWhile_le' _ _) hr
                refine ih _ _ hdl (addHunk_consistent _ _ _ st hst ?_ ?_)
                · exact (processBody_counts _ os ns).1
                · exact (processBody_counts _ os ns).2
            · simp only [hD, Bool.false_eq_true, if_false]
              exact ih rest _ hr hst

/-- C10: every `FilePatch` the parser returns has running totals that
agree with the summary stage's recount over its hunks. -/
theorem parse_counts_match_recount (s : String) (fp : FilePatch)
    (h : fp ∈ parse_unified_diff s) :
    fp.additions = summaryAdditions fp ∧ fp.deletions = summaryDeletions fp := by
  refine parseLines_consistent _ _ _ (le_refl _) ?_ fp h
  exact ⟨by intro fp' hfp'; simp at hfp', by intro acc k hk; simp at hk⟩

theorem startsWithL_cons_shape (c : Char) (p l : List Char)
    (h : startsWithL (c :: p) l = true) : ∃ l', l = c :: l' := by
  cases l with
  | nil => simp [startsWithL] at h
  | cons x xs =>
    simp only [startsWithL, Bool.and_eq_true, beq_iff_eq] at h
    exact ⟨xs, by rw [h.1]⟩

/-- C3: inside a hunk body the parser keeps two independent cursors:
a `+` line (not `+++`) is recorded as an added line at the current new
cursor and only the new cursor advances; a `-` line (not `---`) is
recorded as a removed line at the current old cursor and only the old
cursor advances; a line with a leading space is recorded as a context
line at the current new cursor and both cursors advance. -/
theorem processBody_cursor_rules (os ns : Nat) (l : List Char)
    (rest : List (List Char)) :
    (startsWithL "+".toList l = true → startsWithL "+++".toList l = false →
      processBody os ns (l :: rest) =
        ((⟨l.drop 1, "add", ns⟩ : LineChange) :: (processBody os (ns + 1) rest).1,
         (processBody os (ns + 1) rest).2.1 + 1,
         (processBody os (ns + 1) rest).2.2)) ∧
    (startsWithL "-".toList l = true → startsWithL "---".toList l = false →
      processBody os ns (l :: rest) =
        ((⟨l.drop 1, "remove", os⟩ : LineChange) :: (processBody (os + 1) ns rest).1,
         (processBody (os + 1) ns rest).2.1,
         (processBody (os + 1) ns rest).2.2 + 1)) ∧
    (startsWithL " ".toList l = true →
      processBody os ns (l :: rest) =
        ((⟨l.drop 1, "context", ns⟩ : LineChange) :: (processBody (os + 1) (ns + 1) rest).1,
         (processBody (os + 1) (ns + 1) rest).2.1,
         (processBody (os + 1) (ns + 1) rest).2.2)) := by
  refine ⟨?_, ?_, ?_⟩
  · intro h1 h2
    obtain ⟨l', rfl⟩ := startsWithL_cons_shape '+' _ l h1
    simp only [startsWithL] at h2
    simp at h2
    simp [processBody, startsWithL, h2]
  · intro h1 h2
    obtain ⟨l', rfl⟩ := startsWithL_cons_shape '-' _ l h1
    simp only [startsWithL] at h2
    simp at h2
    simp [processBody, startsWithL, h2]
  · intro h1
    obtain ⟨l', rfl⟩ := startsWithL_cons_shape ' ' _ l h1
    simp [processBody, startsWithL]

/-- C2: on the spec's worked scenario the parser returns exactly one
`FilePatch` for `x.py`, status `modified`, with a single hunk
`-1,1 +1,2` whose lines are the removed `old` at line 1, the added
`new1` at line 1 and the added `new2` at line 2. -/
theorem parse_unified_diff_example :
    parse_unified_diff
        "diff --git a/x.py b/x.py\n@@ -1,1 +1,2 @@\n-old\n+new1\n+new2\n" =
      [⟨"x.py".toList, "modified", 2, 1,
        [⟨1, 1, 1, 2,
          [⟨"old".toList, "remove", 1⟩,
           ⟨"new1".toList, "add", 1⟩,
           ⟨"new2".toList, "add", 2⟩]⟩]⟩] := by
  decide

/-- Witness for C3 at concrete inputs: each of the three hypotheses is
discharged by computation. -/
theorem processBody_cursor_rules_witness :
    processBody 4 7 [['+', 'a']] = ([⟨['a'], "add", 7⟩], 1, 0) ∧
    processBody 4 7 [['-', 'b']] = ([⟨['b'], "remove", 4⟩], 0, 1) ∧
    processBody 4 7 [[' ', 'c']] = ([⟨['c'], "context", 7⟩], 0, 0) := by
  refine ⟨?_, ?_, ?_⟩
  · rw [(processBody_cursor_rules 4 7 ['+', 'a'] []).1 (by decide) (by decide)]
    decide
  · rw [(processBody_cursor_rules 4 7 ['-', 'b'] []).2.1 (by decide) (by decide)]
    decide
  · rw [(processBody_cursor_rules 4 7 [' ', 'c'] []).2.2 (by decide)]
    decide

/-- Witness for C4 at a concrete two-file diff whose marker lines both
match the filename pattern. -/
theorem parse_marker_count_witness :
    (∀ l ∈ splitNl "diff --git a/x.py b/x.py\n@@ -1 +1 @@\n+a\ndiff --git a/y.py b/y.py\n".toList,
        isMarkerLine l = true → (fnSearch l).isSome) ∧
    (parse_unified_diff "diff --git a/x.py b/x.py\n@@ -1 +1 @@\n+a\ndiff --git a/y.py b/y.py\n").length =
      (splitNl "diff --git a/x.py b/x.py\n@@ -1 +1 @@\n+a\ndiff --git a/y.py b/y.py\n".toList).countP
        isMarkerLine :=
  ⟨by decide, parse_marker_count _ (by decide)⟩

/-- Counterexample to C4 as stated: a diff text with one `diff --git`
marker whose header fails the filename pattern yields zero records,
not one. -/
theorem parse_marker_count_cex :
    (parse_unified_diff "diff --git broken\n+x\n").length = 0 ∧
    (splitNl "diff --git broken\n+x\n".toList).countP isMarkerLine = 1 := by
  decide

/-- Witness for C5 (amended) at a concrete diff whose single marker
line fails the filename pattern. -/
theorem parse_failed_markers_witness :
    (∀ l ∈ splitNl "diff --git broken\n@@ -1 +1 @@\n+x\n".toList,
        isMarkerLine l = true → fnSearch l = none) ∧
    parse_unified_diff "diff --git broken\n@@ -1 +1 @@\n+x\n" = [] :=
  ⟨by decide, parse_failed_markers_yield_nothing _ (by decide)⟩

/-- Counterexample to C5 as stated: the marker line fails the
filename pattern, yet the parser starts no file record at all — the
output is empty, so no record with the sentinel filename `unknown`
exists. -/
theorem parse_failed_marker_cex :
    fnSearch "diff --git junk".toList = none ∧
    (splitNl "diff --git junk\n@@ -1 +1 @@\n+x\n".toList).countP isMarkerLine = 1 ∧
    parse_unified_diff "diff --git junk\n@@ -1 +1 @@\n+x\n" = [] := by
  decide

/-- Witness for C10 at the concrete one-file diff: the returned patch
is a member of the output and its totals match the recount. -/
theorem parse_counts_match_recount_witness :
    (⟨"x.py".toList, "modified", 2, 1,
      [⟨1, 1, 1, 2,
        [⟨"old".toList, "remove", 1⟩,
         ⟨"new1".toList, "add", 1⟩,
         ⟨"new2".toList, "add", 2⟩]⟩]⟩ : FilePatch) ∈
      parse_unified_diff "diff --git a/x.py b/x.py\n@@ -1,1 +1,2 @@\n-old\n+new1\n+new2\n" ∧
    ((⟨"x.py".toList, "modified", 2, 1,
      [⟨1, 1, 1, 2,
        [⟨"old".toList, "remove", 1⟩,
         ⟨"new1".toList, "add", 1⟩,
         ⟨"new2".toList, "add", 2⟩]⟩]⟩ : FilePatch).additions =
      summaryAdditions
        ⟨"x.py".toList, "modified", 2, 1,
          [⟨1, 1, 1, 2,
            [⟨"old".toList, "remove", 1⟩,
             ⟨"new1".toList, "add", 1⟩,
             ⟨"new2".toList, "add", 2⟩]⟩]⟩ ∧
     (⟨"x.py".toList, "modified", 2, 1,
      [⟨1, 1, 1, 2,
        [⟨"old".toList, "remove", 1⟩,
         ⟨"new1".toList, "add", 1⟩,
         ⟨"new2".toList, "add", 2⟩]⟩]⟩ : FilePatch).deletions =
      summaryDeletions
        ⟨"x.py".toList, "modified", 2, 1,
          [⟨1, 1, 1, 2,
            [⟨"old".toList, "remove", 1⟩,
             ⟨"new1".toList, "add", 1⟩,
             ⟨"new2".toList, "add", 2⟩]⟩]⟩) :=
  ⟨by decide,
   parse_counts_match_recount
     "diff --git a/x.py b/x.py\n@@ -1,1 +1,2 @@\n-old\n+new1\n+new2\n" _ (by decide)⟩

theorem flatMap_congr' {α β : Type} (l : List α) (f g : α → List β)
    (h : ∀ x ∈ l, f x = g x) : l.flatMap f = l.flatMap g := by
  induction l with
  | nil => rfl
  | cons x xs ih =>
    simp only [List.flatMap_cons]
    rw [h x (by simp), ih (fun y hy => h y (by simp [hy]))]

theorem perFileFindings_error (name : String)
    (backend : AgentFile → Except Unit (Option (List GIssue)))
    (f : AgentFile) (hf : backend f = Except.error ()) :
    perFileFindings name backend f = [] := by
  rw [perFileFindings, hf]
  by_cases h1 : f.added_lines.isEmpty <;> simp [h1]

/-- C6: if the backend raises for one analyzer on one file, the run is
not aborted: that analyzer's other files still contribute exactly as
before, the other two analyzers' results are untouched, the combined
total keeps at least the other two analyzers' findings, and it drops
by at most the failing analyzer's own contribution. -/
theorem combined_robust_to_per_file_failure
    (b1 b1' b2 b3 : AgentFile → Except Unit (Option (List GIssue)))
    (files : List AgentFile) (X : AgentFile)
    (hb : ∀ f, f ≠ X → b1' f = b1 f)
    (hX : b1' X = Except.error ()) :
    combinedComments b1' b2 b3 files =
      (files.flatMap fun f =>
        if f = X then [] else perFileFindings "Code Reviewer" b1 f) ++
      analyzeAgent "Security Auditor" b2 files ++
      analyzeAgent "Performance Analyst" b3 files ∧
    (analyzeAgent "Security Auditor" b2 files).length +
        (analyzeAgent "Performance Analyst" b3 files).length ≤
      (combinedComments b1' b2 b3 files).length ∧
    (combinedComments b1 b2 b3 files).length ≤
      (combinedComments b1' b2 b3 files).length +
        (analyzeAgent "Code Reviewer" b1 files).length := by
  have h1 : analyzeAgent "Code Reviewer" b1' files =
      files.flatMap fun f =>
        if f = X then [] else perFileFindings "Code Reviewer" b1 f := by
    refine flatMap_congr' files _ _ (fun f _ => ?_)
    by_cases hf : f = X
    · subst hf
      rw [if_pos rfl]
      exact perFileFindings_error _ _ _ hX
    · rw [if_neg hf, perFileFindings, hb f hf, perFileFindings]
  refine ⟨?_, ?_, ?_⟩
  · rw [combinedComments]
    simp only [safeAgentCall]
    rw [h1]
  · rw [combinedComments]
    simp only [safeAgentCall, List.length_append]
    omega
  · rw [combinedComments, combinedComments]
    simp only [safeAgentCall, List.length_append]
    have h2 : (analyzeAgent "Code Reviewer" b1' files).length +
        (analyzeAgent "Code Reviewer" b1 files).length ≥
        (analyzeAgent "Code Reviewer" b1 files).length := by omega
    omega

/-- Witness for C6 at concrete backends and files. -/
theorem combined_robust_witness :
    combinedComments c6b1' c6b2 c6b3 [c6X, c6Y] =
      ([c6X, c6Y].flatMap fun f =>
        if f = c6X then [] else perFileFindings "Code Reviewer" c6b1 f) ++
      analyzeAgent "Security Auditor" c6b2 [c6X, c6Y] ++
      analyzeAgent "Performance Analyst" c6b3 [c6X, c6Y] ∧
    (analyzeAgent "Security Auditor" c6b2 [c6X, c6Y]).length +
        (analyzeAgent "Performance Analyst" c6b3 [c6X, c6Y]).length ≤
      (combinedComments c6b1' c6b2 c6b3 [c6X, c6Y]).length ∧
    (combinedComments c6b1 c6b2 c6b3 [c6X, c6Y]).length ≤
      (combinedComments c6b1' c6b2 c6b3 [c6X, c6Y]).length +
        (analyzeAgent "Code Reviewer" c6b1 [c6X, c6Y]).length :=
  combined_robust_to_per_file_failure c6b1 c6b1' c6b2 c6b3 [c6X, c6Y] c6X
    (fun f hf => by simp [c6b1', if_neg hf])
    (by simp [c6b1'])

/-- C7 (amended): when the refinement backend raises for file `X`,
`X`'s raw findings pass through unchanged and every other file is
refined exactly as with the unmodified backend. -/
theorem refine_error_falls_back
    (backend backend' : String → List Finding → Except Unit (Option (List RefinedIssue)))
    (cr sec perf com : List Finding) (X : String)
    (hb : ∀ k iss, k ≠ X → backend' k iss = backend k iss)
    (hX : ∀ iss, backend' X iss = Except.error ()) :
    seniorRefine backend' cr sec perf com =
      (if (cr ++ sec ++ perf ++ com).isEmpty then []
       else (groupByFile (cr ++ sec ++ perf ++ com)).flatMap
        (fun p => if p.1 = X then p.2 else refineFile backend p.1 p.2)) := by
  rw [seniorRefine]
  by_cases hall : (cr ++ sec ++ perf ++ com).isEmpty
  · simp only [hall, if_true]
  · simp only [hall, Bool.false_eq_true, if_false]
    refine flatMap_congr' _ _ _ (fun p _ => ?_)
    by_cases hp : p.1 = X
    · rw [if_pos hp, refineFile, hp, hX]
    · rw [if_neg hp, refineFile, hb p.1 p.2 hp, refineFile]

/-- Counterexample to C7 as stated: when the backend reply parses as
JSON but lacks the `refined_issues` key (the shape
`generate_json_response` returns on an unparseable model reply,
without raising), the file's raw findings are dropped, not passed
through. -/
theorem refine_unparseable_drops_cex :
    seniorRefine (fun _ _ => Except.ok none)
      [⟨"x.py", "Code Reviewer", some 1, some "code_quality",
        some "high", some "m", some "s"⟩] [] [] [] = [] ∧
    ([⟨"x.py", "Code Reviewer", some 1, some "code_quality",
        some "high", some "m", some "s"⟩] : List Finding) ≠ [] := by
  constructor
  · rfl
  · decide

/-- Witness for C7 at a concrete backend failing only on `x.py`. -/
theorem refine_error_falls_back_witness :
    seniorRefine c7backend' [c7fx] [c7fy] [] [] =
      (if ([c7fx] ++ [c7fy] ++ [] ++ []).isEmpty then []
       else (groupByFile ([c7fx] ++ [c7fy] ++ [] ++ [])).flatMap
        (fun p => if p.1 = "x.py" then p.2 else refineFile c7backend p.1 p.2)) :=
  refine_error_falls_back c7backend c7backend' [c7fx] [c7fy] [] [] "x.py"
    (fun k iss hk => by simp [c7backend', if_neg hk])
    (fun iss => by simp [c7backend'])

theorem startsWithL_iff_append (p s : List Char) :
    startsWithL p s = true ↔ ∃ t, s = p ++ t := by
  induction p generalizing s with
  | nil => simp [startsWithL]
  | cons c cs ih =>
    cases s with
    | nil =>
      simp only [startsWithL]
      constructor
      · intro h; cases h
      · rintro ⟨t, ht⟩; cases ht
    | cons x xs =>
      simp only [startsWithL, Bool.and_eq_true, beq_iff_eq, ih]
      constructor
      · rintro ⟨rfl, t, rfl⟩; exact ⟨t, rfl⟩
      · rintro ⟨t, ht⟩
        injection ht with h1 h2
        exact ⟨h1.symm, t, h2⟩

theorem hasSub_iff (pat s : List Char) :
    hasSub pat s = true ↔ ∃ x y, s = x ++ pat ++ y := by
  induction s with
  | nil =>
    simp only [hasSub, startsWithL_iff_append]
    constructor
    · rintro ⟨t, ht⟩
      exact ⟨[], t, by simpa using ht⟩
    · rintro ⟨x, y, hxy⟩
      have hx : x = [] ∧ pat ++ y = [] := by
        constructor
        · cases x with
          | nil => rfl
          | cons a as => simp at hxy
        · cases x with
          | nil => simpa using hxy.symm
          | cons a as => simp at hxy
      exact ⟨y, by simp [hx.2]⟩
  | cons c cs ih =>
    simp only [hasSub, Bool.or_eq_true, startsWithL_iff_append, ih]
    constructor
    · rintro (⟨t, ht⟩ | ⟨x, y, hxy⟩)
      · exact ⟨[], t, by simpa using ht⟩
      · exact ⟨c :: x, y, by simp [hxy]⟩
    · rintro ⟨x, y, hxy⟩
      cases x with
      | nil =>
        left
        exact ⟨y, by simpa using hxy⟩
      | cons a as =>
        right
        injection hxy with h1 h2
        exact ⟨as, y, h2⟩

theorem hasSub_of_decomp (pat s x y : List Char) (h : s = x ++ pat ++ y) :
    hasSub pat s = true := (hasSub_iff pat s).mpr ⟨x, y, h⟩

theorem toListApp (a b : String) : (a ++ b).toList = a.toList ++ b.toList := by
  simp [String.toList]

theorem hasSub_append_right (pat s t : List Char) (h : hasSub pat s = true) :
    hasSub pat (s ++ t) = true := by
  obtain ⟨x, y, rfl⟩ := (hasSub_iff pat s).mp h
  exact (hasSub_iff _ _).mpr ⟨x, y ++ t, by simp⟩

theorem hasSub_append_left (pat s t : List Char) (h : hasSub pat t = true) :
    hasSub pat (s ++ t) = true := by
  obtain ⟨x, y, rfl⟩ := (hasSub_iff pat t).mp h
  exact (hasSub_iff _ _).mpr ⟨s ++ x, y, by simp⟩

theorem hasSub_self_extend (pat t : List Char) : hasSub pat (pat ++ t) = true :=
  (hasSub_iff _ _).mpr ⟨[], t, by simp⟩

theorem hasSub_concatStrs_of_mem (pat : List Char) (l : List String) (f : String)
    (hf : f ∈ l) (h : hasSub pat f.toList = true) :
    hasSub pat (concatStrs l).toList = true := by
  induction l with
  | nil => cases hf
  | cons g gs ih =>
    rw [concatStrs, toListApp]
    rcases List.mem_cons.mp hf with rfl | hmem
    · exact hasSub_append_right _ _ _ h
    · exact hasSub_append_left _ _ _ (ih hmem)

/-- C8 (amended): the renderer is a pure function that chooses between
the affirmative line and the detailed section solely on whether
`files_review` is present and non-empty: an absent or empty
`files_review` renders the affirmative line, and a non-empty one
renders the detailed header and one per-file section per entry —
regardless of the finding count, so also when it is zero. -/
theorem format_sections_follow_files_review (r : Report) :
    ((r.files_review = none ∨ r.files_review = some []) →
      hasSub "✅ No issues found!".toList (formatReviewComment r).toList = true) ∧
    (∀ frs, r.files_review = some frs → frs ≠ [] →
      hasSub "### Detailed Findings".toList (formatReviewComment r).toList = true ∧
      ∀ f ∈ frs,
        hasSub ("#### 📄 `" ++ f.filename.getD "Unknown" ++ "`").toList
          (formatReviewComment r).toList = true) := by
  obtain ⟨sum, frev⟩ := r
  constructor
  · intro h
    have hfr : frev = none ∨ frev = some [] := h
    have hform : formatReviewComment ⟨sum, frev⟩ =
        (("## 🤖 Automated PR Review\n\n" ++ summarySection sum) ++
          "✅ No issues found!\n") ++
        "\n---\n*Generated by AI-powered PR Review Agent*" := by
      rcases hfr with rfl | rfl <;> rfl
    rw [hform]
    simp only [toListApp]
    exact hasSub_append_right _ _ _ (hasSub_append_left _ _ _ (by decide))
  · intro frs hfr hne
    have hfrev : frev = some frs := hfr
    subst hfrev
    cases frs with
    | nil => exact absurd rfl hne
    | cons f0 frs' =>
      have hform : formatReviewComment ⟨sum, some (f0 :: frs')⟩ =
          ((("## 🤖 Automated PR Review\n\n" ++ summarySection sum) ++
            "### Detailed Findings\n\n") ++
            concatStrs ((f0 :: frs').map renderFileSection)) ++
          "\n---\n*Generated by AI-powered PR Review Agent*" := rfl
      constructor
      · rw [hform]
        simp only [toListApp]
        exact hasSub_append_right _ _ _ (hasSub_append_right _ _ _
          (hasSub_append_left _ _ _ (by decide)))
      · intro f hf
        have hsec : hasSub ("#### 📄 `" ++ f.filename.getD "Unknown" ++ "`").toList
            (renderFileSection f).toList = true := by
          have hdecomp : (renderFileSection f).toList =
              ("#### 📄 `" ++ f.filename.getD "Unknown" ++ "`").toList ++
              ("\n\n".toList ++ (issuesBlock f.issues).toList) := by
            simp [renderFileSection, String.toList, List.append_assoc]
          rw [hdecomp]
          exact hasSub_self_extend _ _
        have hjoin := hasSub_concatStrs_of_mem _ ((f0 :: frs').map renderFileSection)
          (renderFileSection f) (List.mem_map_of_mem _ hf) hsec
        rw [hform]
        simp only [toListApp]
        exact hasSub_append_right _ _ _ (hasSub_append_left _ _ _ hjoin)

/-- Counterexample to C8 as stated: a report with total finding count
zero but a non-empty `files_review` (exactly what the summary stage
produces for a clean PR, one entry per analysed file with an empty
issue list) renders a per-file section and no affirmative line. -/
theorem format_zero_findings_cex :
    totalFindings ⟨some "ok", some [⟨some "a.py", some []⟩]⟩ = 0 ∧
    hasSub "✅ No issues found!".toList
      (formatReviewComment ⟨some "ok", some [⟨some "a.py", some []⟩]⟩).toList = false ∧
    hasSub "#### 📄 `a.py`".toList
      (formatReviewComment ⟨some "ok", some [⟨some "a.py", some []⟩]⟩).toList = true := by
  decide

/-- Witness for C8 (amended) at concrete reports, including the
zero-findings report with a non-empty `files_review`. -/
theorem format_sections_witness :
    hasSub "### Detailed Findings".toList
      (formatReviewComment ⟨some "ok", some [⟨some "a.py", some []⟩]⟩).toList = true ∧
    hasSub ("#### 📄 `" ++ "a.py" ++ "`").toList
      (formatReviewComment ⟨some "ok", some [⟨some "a.py", some []⟩]⟩).toList = true ∧
    hasSub "✅ No issues found!".toList (formatReviewComment ⟨none, none⟩).toList = true := by
  refine ⟨?_, ?_, ?_⟩
  · exact ((format_sections_follow_files_review _).2 _ rfl (by decide)).1
  · exact ((format_sections_follow_files_review _).2 _ rfl (by decide)).2
      ⟨some "a.py", some []⟩ (by decide)
  · exact (format_sections_follow_files_review _).1 (Or.inl rfl)

/-- C9 (amended): startup never reaches a credential check — for
every environment, credentials present or not, the import chain
aborts with the same `AttributeError` (the config package has no
initializer, so the imported `settings` name is the module and
`settings.log_level` fails in `setup_logger` while loading the diff
parser), before `GeminiConfig` is ever constructed; no
`ConfigurationMissing` class exists, and `validate_settings` — the
only code that would reject a missing credential — is never
invoked. -/
theorem appStartup_characterisation (e : EnvVars) :
    appStartup e =
      Except.error
        "AttributeError: module app.config.settings has no attribute log_level" ∧
    validate_settings e =
      (if e.github_token = "" ∨ e.gemini_api_key = "" then
        Except.error "Configuration errors"
      else Except.ok ()) := by
  constructor
  · rfl
  · by_cases h1 : e.github_token = "" <;> by_cases h2 : e.gemini_api_key = "" <;>
      simp [validate_settings, h1, h2]

/-- Counterexample to C9 as stated: with both credentials present —
a configuration `validate_settings` would accept — the process still
aborts at start, and with an `AttributeError`, so the abort is
unrelated to missing credentials and is not any
configuration-missing error class. -/
theorem appStartup_always_aborts_cex :
    appStartup ⟨"tok", "key"⟩ =
      Except.error
        "AttributeError: module app.config.settings has no attribute log_level" ∧
    validate_settings ⟨"tok", "key"⟩ = Except.ok () := by
  exact ⟨rfl, rfl⟩
